import Mathlib

/-!
# Verification of the Agent Session Engine (deploy-agent)

Shallow embedding of the chat frontend of the deploy-agent repository and
proofs about it.  Pure rendering components are embedded from the TypeScript
sources under `frontend_web/src/components`; the engine parts that are not
part of the source tree (Event Decoder, Session Store, Run Controller,
Thread Lifecycle Manager) are modelled from the specification where a claim
needs them, and each such definition is marked `Modelled from the spec:` in
its doc comment.
-/

namespace DeployAgent

/-- JSON values, used for tool arguments, payloads and rendered code blocks. -/
inductive Json where
  | null : Json
  | bool (b : Bool) : Json
  | num (n : Int) : Json
  | str (s : String) : Json
  | arr (xs : List Json) : Json
  | obj (fields : List (String × Json)) : Json

/-- A tool invocation embedded in a message's content parts
(`{toolCallId, toolName, args, result?}`, `src/frontend_web` types). -/
structure ToolInvocation where
  toolCallId : String
  toolName : String
  args : Json
  result : Option String

/-- JavaScript truthiness of an optional string (`!!toolInvocation.result`):
`undefined` and the empty string are falsy. -/
def isTruthy : Option String → Bool
  | none => false
  | some s => s ≠ ""

/-- The `status` value handed to a tool's `render`/`renderAndWait` function. -/
inductive ToolStatus where
  | pending : ToolStatus
  | complete : ToolStatus
deriving DecidableEq, Repr

/-- The slice of a `ToolDefinition` that `ToolInvocationPart` inspects:
whether a `render` and/or a `renderAndWait` implementation is present. -/
structure ToolDef where
  hasRender : Bool
  hasRenderAndWait : Bool
deriving DecidableEq, Repr

/-- A rendered view item, abstracting the JSX returned by the components in
`ChatMessage.tsx`.  `codeBlock j` stands for a `CodeBlock` whose code is the
JSON serialization of `j`. -/
inductive Rendered where
  | toolRenderView (status : ToolStatus) (args : Json) : Rendered
  | toolRenderAndWaitView (status : ToolStatus) (args : Json) : Rendered
  | defaultToolView (toolName : String) (hasResult : Bool)
      (args : Json) (result : Option String) : Rendered
  | codeBlock (j : Json) : Rendered
  | textView (text : String) : Rendered

/-- Embedding of `ToolInvocationPart` (`ChatMessage.tsx`, lines 170-233):
if the resolved tool has a `render` function it is called with the literal
status `complete` together with the invocation args; otherwise, if it has a
`renderAndWait` function it is called with the literal status `complete`,
the args and a callback; otherwise the default collapsible view is produced,
whose spinner/checkmark is driven by `hasResult = !!toolInvocation.result`. -/
def ToolInvocationPart (tool : Option ToolDef) (ti : ToolInvocation) : Rendered :=
  match tool with
  | some td =>
      if td.hasRender then
        Rendered.toolRenderView ToolStatus.complete ti.args
      else if td.hasRenderAndWait then
        Rendered.toolRenderAndWaitView ToolStatus.complete ti.args
      else
        Rendered.defaultToolView ti.toolName (isTruthy ti.result) ti.args ti.result
  | none =>
      Rendered.defaultToolView ti.toolName (isTruthy ti.result) ti.args ti.result

/-- Observable effects of UI callbacks: a console log, or a resume signal
sent back through the Run Controller to the server. -/
inductive Effect where
  | consoleLog (e : Json) : Effect
  | resumeSignal (payload : Json) : Effect

/-- Embedding of the callback that `ToolInvocationPart` hands to the
`renderAndWait` view of a tool (`ChatMessage.tsx`, lines 184-187): the
callback body is `event => console.log(event)`, so its only effect is a
console log. -/
def renderAndWaitCallback (e : Json) : List Effect :=
  [Effect.consoleLog e]

/-- Whether an effect is a resume signal sent back to the Run Controller. -/
def Effect.isResume : Effect → Bool
  | Effect.consoleLog _ => false
  | Effect.resumeSignal _ => true

/-! ## ChatTextInput (`ChatTextInput.tsx`) -/

/-- The fields of a React keyboard event that `keyDownHandler` inspects. -/
structure KeyEvent where
  key : String
  shiftKey : Bool
  ctrlKey : Bool
  metaKey : Bool
deriving DecidableEq, Repr

/-- The state `ChatTextInput` closes over: the controlled input value, the
IME composition flag, the `runningAgent` prop, and the text selection of the
textarea the `ref` points at. -/
structure InputState where
  userInput : String
  isComposing : Bool
  runningAgent : Bool
  selStart : Nat
  selEnd : Nat
deriving DecidableEq, Repr

/-- The observable outcome of a keydown: nothing, a call to
`onSubmit text`, or a call to `setUserInput newValue`. -/
inductive KeyAction where
  | noAction : KeyAction
  | submit (text : String) : KeyAction
  | setInput (newValue : String) : KeyAction
deriving DecidableEq, Repr

/-- JavaScript `String.prototype.trim()`: remove leading and trailing
whitespace, embedded as an executable character-list operation. -/
def jsTrim (s : String) : String :=
  String.mk (((s.data.dropWhile Char.isWhitespace).reverse.dropWhile
    Char.isWhitespace).reverse)

/-- `userInput.slice(0, start) + newline + userInput.slice(end)`: the new
value built when Ctrl/Meta+Enter inserts a newline at the cursor. -/
def insertNewlineAt (s : String) (selStart selEnd : Nat) : String :=
  String.take s selStart ++ "\n" ++ String.drop s selEnd

/-- Embedding of `keyDownHandler` (`ChatTextInput.tsx`, lines 150-173).
The guard requires the Enter key, Shift not held, no IME composition, no
running agent, and a nonempty trimmed input; then Ctrl or Meta selects the
newline-insertion branch, otherwise the event is prevented and
`onSubmit userInput` fires. -/
def keyDownHandler (st : InputState) (e : KeyEvent) : KeyAction :=
  if e.key = "Enter" ∧ e.shiftKey = false ∧ st.isComposing = false ∧
      st.runningAgent = false ∧ (jsTrim st.userInput).length ≠ 0 then
    if e.ctrlKey = true ∨ e.metaKey = true then
      KeyAction.setInput (insertNewlineAt st.userInput st.selStart st.selEnd)
    else
      KeyAction.submit st.userInput
  else
    KeyAction.noAction

/-- Embedding of the send-button area (`ChatTextInput.tsx`, lines 203-225):
while `runningAgent` a disabled spinner button is rendered (no click
handler); otherwise the send button is enabled exactly when
`userInput.trim().length` is nonzero, and clicking it calls
`onSubmit userInput`. -/
def sendButtonEnabled (st : InputState) : Bool :=
  !st.runningAgent && (jsTrim st.userInput).length != 0

/-- The suggestion chips of `ChatTextInput.tsx` (lines 125-130); each chip
calls `onSubmit` with its constant label. -/
def suggestions : List String :=
  ["デプロイメント一覧", "ヘルスチェック", "エラー分析", "パフォーマンス確認"]

/-! ## Content parts and the chat view dispatch
(`ChatMessage.tsx`, part_002 `ChatImplementation`) -/

/-- A content part of a message: text, a tool invocation, or any other
part type (kept as raw JSON). -/
inductive ContentPart where
  | text (text : String) : ContentPart
  | toolInvocationPart (ti : ToolInvocation) : ContentPart
  | other (j : Json) : ContentPart

/-- A chat message event as rendered by `ChatMessage.tsx`: a role and an
ordered list of content parts. -/
structure ChatMessageEvent where
  id : String
  role : String
  parts : List ContentPart

/-- Embedding of `UniversalContentPart` (`ChatMessage.tsx`, lines 130-138):
a text part renders as markdown text, a tool-invocation part dispatches to
`ToolInvocationPart`, and any other part renders as a `CodeBlock` holding
its JSON serialization. -/
def UniversalContentPart (getTool : String → Option ToolDef) :
    ContentPart → Rendered
  | ContentPart.text t => Rendered.textView t
  | ContentPart.toolInvocationPart ti => ToolInvocationPart (getTool ti.toolName) ti
  | ContentPart.other j => Rendered.codeBlock j

/-- An entry of the merged per-thread view model (the `combinedEvents` the
chat page maps over). -/
inductive CombinedEvent where
  | errorEv (message : String) : CombinedEvent
  | messageEv (id role : String) (parts : List ContentPart) : CombinedEvent
  | stepEv (name : String) (isRunning : Bool) : CombinedEvent
  | thinkingEv : CombinedEvent
  | unknownEv (ty : String) (payload : Json) : CombinedEvent

/-- A rendered entry of the chat view. -/
inductive ViewItem where
  | chatError (message : String) : ViewItem
  | chatMessage (id role : String) (parts : List ContentPart) : ViewItem
  | stepItem (name : String) (isRunning : Bool) : ViewItem
  | thinkingItem : ViewItem

/-- Embedding of the event dispatch in `ChatImplementation` (part_002,
lines 149-163): error, message, step and thinking state events each render
their component; any other event falls through every guard and the map
callback returns undefined, so nothing is rendered for it. -/
def renderCombinedEvent : CombinedEvent → Option ViewItem
  | CombinedEvent.errorEv m => some (ViewItem.chatError m)
  | CombinedEvent.messageEv i r ps => some (ViewItem.chatMessage i r ps)
  | CombinedEvent.stepEv n b => some (ViewItem.stepItem n b)
  | CombinedEvent.thinkingEv => some ViewItem.thinkingItem
  | CombinedEvent.unknownEv _ _ => none

/-- The list of rendered entries for a view model. -/
def renderCombinedEvents (es : List CombinedEvent) : List ViewItem :=
  es.filterMap renderCombinedEvent

/-! ## Per-message error boundary (`ChatMessage.tsx`, lines 33-77, 291-297) -/

/-- The view produced for one message: either the normal
`ChatMessageContent` body, or the diagnostic fallback of
`ChatMessageErrorBoundary`, which shows the message data as JSON together
with the caught error. -/
inductive MessageView where
  | content (parts : List Rendered) : MessageView
  | diagnostic (m : ChatMessageEvent) (err : String) : MessageView

/-- Embedding of `ChatMessage` (`ChatMessage.tsx`, lines 291-297): the
content render step for one message may fail; `ChatMessageErrorBoundary`
catches the failure (`getDerivedStateFromError`) and substitutes the
diagnostic view carrying the message and the error. -/
def ChatMessage (renderContent : ChatMessageEvent → Except String (List Rendered))
    (m : ChatMessageEvent) : MessageView :=
  match renderContent m with
  | Except.ok v => MessageView.content v
  | Except.error e => MessageView.diagnostic m e

/-- Rendering a list of messages: each message goes through its own
boundary, independently of the others. -/
def renderMessageList (renderContent : ChatMessageEvent → Except String (List Rendered))
    (ms : List ChatMessageEvent) : List MessageView :=
  ms.map (ChatMessage renderContent)

/-! ## Thread Lifecycle Manager and Run Controller (modelled from the spec)

The Run Controller, Session Store and Thread Lifecycle Manager of the
engine are not part of the source tree (only their UI consumers are), so
the definitions in this section are modelled from the specification. -/

/-- Modelled from the spec: per-thread run state
(`RunState: {isRunning: bool, cancelToken}`, §3). -/
structure RunState where
  isRunning : Bool
deriving DecidableEq, Repr

/-- Modelled from the spec: the error raised by `start` when a run is
already active for the thread (§4.3, §7). -/
inductive RunError where
  | alreadyRunning : RunError
deriving DecidableEq, Repr

/-- Modelled from the spec: the table of run states kept by the Thread
Lifecycle Manager, one association per thread id (§3, §4.5). -/
structure Lifecycle where
  runs : List (String × RunState)

/-- The run state recorded for a thread, if any. -/
def lookupRun (m : Lifecycle) (tid : String) : Option RunState :=
  (m.runs.find? (fun p => p.1 = tid)).map Prod.snd

/-- Update the run state of a thread in place, or record it for a new
thread. -/
def setRun (m : Lifecycle) (tid : String) (rs : RunState) : Lifecycle :=
  if (m.runs.find? (fun p => p.1 = tid)).isSome then
    Lifecycle.mk (m.runs.map (fun p => if p.1 = tid then (p.1, rs) else p))
  else
    Lifecycle.mk (m.runs ++ [(tid, rs)])

/-- Modelled from the spec: `start(threadId, userInput)` of the Run
Controller fails with `AlreadyRunningError` if a run is active for that
thread, and otherwise marks the thread as running (§4.3). -/
def startRun (m : Lifecycle) (tid : String) : Except RunError Lifecycle :=
  match lookupRun m tid with
  | some rs =>
      if rs.isRunning then Except.error RunError.alreadyRunning
      else Except.ok (setRun m tid (RunState.mk true))
  | none => Except.ok (setRun m tid (RunState.mk true))

/-- Modelled from the spec: a terminal frame or a cancellation marks the
run not-running (§4.3). -/
def stopRun (m : Lifecycle) (tid : String) : Lifecycle :=
  setRun m tid (RunState.mk false)

/-- The lifecycle states reachable from the initial empty table by the
operations of the Run Controller. -/
inductive Reach : Lifecycle → Prop where
  | init : Reach (Lifecycle.mk [])
  | start {m m2 : Lifecycle} {tid : String} :
      Reach m → startRun m tid = Except.ok m2 → Reach m2
  | stop {m : Lifecycle} {tid : String} : Reach m → Reach (stopRun m tid)

/-- How many entries of the table are an active run of the given thread. -/
def runningCount (m : Lifecycle) (tid : String) : Nat :=
  (m.runs.filter (fun p => p.1 = tid ∧ p.2.isRunning = true)).length

/-! ## Thread deletion (modelled from the spec, §4.4, §4.5, §8) -/

/-- Modelled from the spec: the per-thread state the deletion path touches —
run states plus per-thread event logs (payloads kept as raw JSON). -/
structure SessionState where
  runs : List (String × RunState)
  logs : List (String × List Json)

/-- Whether the thread currently has an active run. -/
def isRunningS (s : SessionState) (tid : String) : Bool :=
  match s.runs.find? (fun p => p.1 = tid) with
  | some p => p.2.isRunning
  | none => false

/-- The event log recorded for a thread, if any. -/
def lookupLog (s : SessionState) (tid : String) : Option (List Json) :=
  (s.logs.find? (fun p => p.1 = tid)).map Prod.snd

/-- Modelled from the spec: cancelling a run aborts the transport and marks
the run not-running; it is a hard stop (§4.3). -/
def cancelRunS (s : SessionState) (tid : String) : SessionState :=
  SessionState.mk
    (s.runs.map (fun p => if p.1 = tid then (p.1, RunState.mk false) else p))
    s.logs

/-- Modelled from the spec: removing the state of a thread drops its run
state and its event log (§4.4, §4.5). -/
def removeThreadS (s : SessionState) (tid : String) : SessionState :=
  SessionState.mk
    (s.runs.filter (fun p => p.1 ≠ tid))
    (s.logs.filter (fun p => p.1 ≠ tid))

/-- Modelled from the spec: the Run Controller applies a decoded event to
the log of its thread only while the run is active; after cancellation it
refuses to apply further events (§4.3, §5). -/
def appendDecoded (s : SessionState) (tid : String) (e : Json) : SessionState :=
  if isRunningS s tid then
    SessionState.mk s.runs
      (s.logs.map (fun p => if p.1 = tid then (p.1, p.2 ++ [e]) else p))
  else s

/-- The externally observable steps of a deletion, in order. -/
inductive DelStep where
  | cancelRun (tid : String) : DelStep
  | removeState (tid : String) : DelStep
  | callbackFired (tid : String) : DelStep
deriving DecidableEq, Repr

/-- Modelled from the spec: deleting a thread with an active run first
cancels that run, then removes thread state, and reports completion to the
originating collaborator only after both steps (§4.5).  The function returns
the final state together with the ordered trace of steps. -/
def deleteThread (s : SessionState) (tid : String) : SessionState × List DelStep :=
  let afterCancel := cancelRunS s tid
  let afterRemove := removeThreadS afterCancel tid
  (afterRemove,
    (if isRunningS s tid then [DelStep.cancelRun tid] else []) ++
      [DelStep.removeState tid, DelStep.callbackFired tid])

/-! ## Event Decoder and Session Store merge (modelled from the spec,
§4.1, §4.4, §6) -/

/-- Modelled from the spec: raw protocol frames as consumed by the Event
Decoder (§6).  A text delta carries the id of the in-progress message it
belongs to; a frame whose type discriminator is unknown carries its type
and payload. -/
inductive Frame where
  | textDelta (msgId delta : String) : Frame
  | toolCallFrame (msgId : String) (ti : ToolInvocation) : Frame
  | toolResultFrame (toolCallId result : String) : Frame
  | stepFrame (name : String) (isRunning : Bool) : Frame
  | thinkingFrame : Frame
  | errorFrame (message : String) : Frame
  | unknownFrame (ty : String) (payload : Json) : Frame

/-- Modelled from the spec: typed domain events produced by the Event
Decoder (§3, §4.1). -/
inductive Event where
  | message (id role : String) (parts : List ContentPart) : Event
  | toolResultE (toolCallId result : String) : Event
  | stepE (name : String) (isRunning : Bool) : Event
  | thinkingE : Event
  | errorE (message : String) : Event
  | unknownE (ty : String) (payload : Json) : Event

/-- Modelled from the spec: the Event Decoder turns each well-formed frame
into exactly one typed event; unknown-but-well-formed frames are preserved
as the opaque variant rather than dropped (§4.1). -/
def decodeFrame : Frame → Event
  | Frame.textDelta i d => Event.message i "assistant" [ContentPart.text d]
  | Frame.toolCallFrame i ti =>
      Event.message i "assistant" [ContentPart.toolInvocationPart ti]
  | Frame.toolResultFrame c r => Event.toolResultE c r
  | Frame.stepFrame n b => Event.stepE n b
  | Frame.thinkingFrame => Event.thinkingE
  | Frame.errorFrame m => Event.errorE m
  | Frame.unknownFrame ty p => Event.unknownE ty p

/-- Coalesce adjacent text parts so that consecutive text deltas of one
message form a single text. -/
def coalesceTexts : List ContentPart → List ContentPart
  | [] => []
  | ContentPart.text a :: ContentPart.text b :: rest =>
      coalesceTexts (ContentPart.text (a ++ b) :: rest)
  | p :: rest => p :: coalesceTexts rest
termination_by l => l.length

/-- Resolve a tool invocation in place: the result transitions from absent
to present when the tool call id matches; a present result is left alone. -/
def resolveInvocation (callId result : String) (ti : ToolInvocation) : ToolInvocation :=
  if ti.toolCallId = callId ∧ ti.result = none then
    ToolInvocation.mk ti.toolCallId ti.toolName ti.args (some result)
  else ti

/-- Resolve a tool invocation inside a content part. -/
def resolvePart (callId result : String) : ContentPart → ContentPart
  | ContentPart.toolInvocationPart ti =>
      ContentPart.toolInvocationPart (resolveInvocation callId result ti)
  | p => p

/-- Resolve a tool invocation inside a view-model entry. -/
def resolveEntry (callId result : String) : CombinedEvent → CombinedEvent
  | CombinedEvent.messageEv i r ps =>
      CombinedEvent.messageEv i r (ps.map (resolvePart callId result))
  | e => e

/-- Remove the thinking entry at the front of the newest-first view model:
a thinking entry is shown only while no newer event exists and is removed
the instant the next event arrives (§4.4). -/
def dropThinking : List CombinedEvent → List CombinedEvent
  | CombinedEvent.thinkingEv :: rest => rest
  | l => l

/-- Push one message event onto the newest-first view model: if the newest
entry is the same in-progress message (same id), the new parts are merged
into it and adjacent text deltas concatenate; otherwise a new message entry
starts (§4.4). -/
def pushMsg (i role : String) (parts : List ContentPart) :
    List CombinedEvent → List CombinedEvent
  | CombinedEvent.messageEv j r ps :: rest =>
      if i = j then
        CombinedEvent.messageEv j r (coalesceTexts (ps ++ parts)) :: rest
      else
        CombinedEvent.messageEv i role (coalesceTexts parts) ::
          (CombinedEvent.messageEv j r ps :: rest)
  | l => CombinedEvent.messageEv i role (coalesceTexts parts) :: l

/-- Modelled from the spec: one merge step of `getViewModel`, acting on the
view model kept newest-entry-first.  A thinking entry is removed the instant
the next event arrives; a message event whose id matches the newest entry is
merged into it (text deltas concatenate); a tool result resolves the
matching invocation in place; every other event becomes a standalone entry
(§4.4). -/
def pushRev (acc : List CombinedEvent) (e : Event) : List CombinedEvent :=
  match e with
  | Event.message i role parts => pushMsg i role parts (dropThinking acc)
  | Event.toolResultE c r => (dropThinking acc).map (resolveEntry c r)
  | Event.stepE n b => CombinedEvent.stepEv n b :: dropThinking acc
  | Event.thinkingE => CombinedEvent.thinkingEv :: dropThinking acc
  | Event.errorE m => CombinedEvent.errorEv m :: dropThinking acc
  | Event.unknownE ty p => CombinedEvent.unknownEv ty p :: dropThinking acc

/-- Modelled from the spec: `getViewModel` merges the ordered event log of
a thread into the render-ready view model (§4.4). -/
def viewModel (evs : List Event) : List CombinedEvent :=
  (evs.foldl pushRev []).reverse

/-- The text carried by a list of content parts, in order. -/
def textOfParts : List ContentPart → String
  | [] => ""
  | ContentPart.text t :: rest => t ++ textOfParts rest
  | _ :: rest => textOfParts rest

/-- The text carried by one view-model entry. -/
def textOfEntry : CombinedEvent → String
  | CombinedEvent.messageEv _ _ ps => textOfParts ps
  | _ => ""

/-- The message text of a whole view model, in entry order. -/
def textOfView : List CombinedEvent → String
  | [] => ""
  | e :: rest => textOfEntry e ++ textOfView rest

/-- The message text of the newest-first accumulator the merge works on:
oldest text first, as in the chronological view. -/
def revText : List CombinedEvent → String
  | [] => ""
  | e :: rest => revText rest ++ textOfEntry e

/-- The text carried by one decoded event. -/
def textOfEvent : Event → String
  | Event.message _ _ ps => textOfParts ps
  | _ => ""

/-- The text carried by an event sequence, in order. -/
def textOfEvents : List Event → String
  | [] => ""
  | e :: rest => textOfEvent e ++ textOfEvents rest

/-- The concatenation of all text deltas of a frame sequence, in frame
order. -/
def textOfFrames : List Frame → String
  | [] => ""
  | Frame.textDelta _ d :: rest => d ++ textOfFrames rest
  | _ :: rest => textOfFrames rest

/-- The concatenation of a list of strings, in order. -/
def concatAll : List String → String
  | [] => ""
  | s :: rest => s ++ concatAll rest

/-- The error message carried by one view-model entry, if any. -/
def errOfEntry : CombinedEvent → List String
  | CombinedEvent.errorEv m => [m]
  | _ => []

/-- The error messages of a view model, in entry order. -/
def errorsOfView : List CombinedEvent → List String
  | [] => []
  | e :: rest => errOfEntry e ++ errorsOfView rest

/-- The error messages of the newest-first accumulator, oldest first. -/
def revErrors : List CombinedEvent → List String
  | [] => []
  | e :: rest => revErrors rest ++ errOfEntry e

/-- The error messages carried by one event. -/
def errOfEvent : Event → List String
  | Event.errorE m => [m]
  | _ => []

/-- The error messages of an event sequence, in order. -/
def errorsOfEvents : List Event → List String
  | [] => []
  | e :: rest => errOfEvent e ++ errorsOfEvents rest

/-- Whether two adjacent view entries are message entries of the same
message id — exactly the situation the merge is meant to rule out. -/
def sameMessage : CombinedEvent → CombinedEvent → Prop
  | CombinedEvent.messageEv i _ _, CombinedEvent.messageEv j _ _ => i = j
  | _, _ => False

/-! ## Sequenced per-thread event log (modelled from the spec, §3, §4.4) -/

/-- Modelled from the spec: an appended event together with the `sequence`
number the Run Controller assigned to it (§3, §4.1). -/
structure StoredEvent where
  sequence : Nat
  payload : Event

/-- Modelled from the spec: the ordered per-thread event log of the Session
Store, together with the next sequence number to assign (§3, §4.4). -/
structure ThreadLog where
  events : List StoredEvent
  nextSeq : Nat

/-- The empty log of a fresh thread. -/
def ThreadLog.empty : ThreadLog := ThreadLog.mk [] 0

/-- Modelled from the spec: `append` adds the event at the end of the log
with the next sequence number; it never reorders or drops (§4.4). -/
def appendEvent (l : ThreadLog) (e : Event) : ThreadLog :=
  ThreadLog.mk (l.events ++ [StoredEvent.mk l.nextSeq e]) (l.nextSeq + 1)

/-- Resolve a tool invocation inside a stored event, leaving the sequence
number and every other field alone. -/
def resolveStored (callId result : String) (se : StoredEvent) : StoredEvent :=
  match se.payload with
  | Event.message i r ps =>
      StoredEvent.mk se.sequence
        (Event.message i r (ps.map (resolvePart callId result)))
  | _ => se

/-- Modelled from the spec: resolving a tool call updates the one matching
`ToolInvocation` in place — the single permitted in-place update (§3). -/
def resolveLog (callId result : String) (l : ThreadLog) : ThreadLog :=
  ThreadLog.mk (l.events.map (resolveStored callId result)) l.nextSeq

/-- Well-formedness of a log: the sequence numbers are strictly increasing
along the log and stay below the next number to assign. -/
def WfLog (l : ThreadLog) : Prop :=
  List.Chain' (fun a b => a < b) (l.events.map StoredEvent.sequence) ∧
    ∀ s ∈ l.events.map StoredEvent.sequence, s < l.nextSeq

/-! ## Rendering against the store (for the fault-isolation claim) -/

/-- The message events of a log, in order. -/
def messagesOfLog (l : ThreadLog) : List ChatMessageEvent :=
  l.events.filterMap (fun se =>
    match se.payload with
    | Event.message i r ps => some (ChatMessageEvent.mk i r ps)
    | _ => none)

/-- One render pass of the UI consumer over the store: it reads the
messages and produces views, returning the store untouched — per-item
render failures are absorbed by the boundary and never reach the store. -/
def renderAgainstStore (l : ThreadLog)
    (renderContent : ChatMessageEvent → Except String (List Rendered)) :
    ThreadLog × List MessageView :=
  (l, renderMessageList renderContent (messagesOfLog l))

/-! # Theorems -/

/-! ## C1: status handed to Render-mode tools -/

/-- C1, counterexample: for a Render-mode tool and an invocation whose
result is still absent, `ToolInvocationPart` calls the render function with
status `complete`, not with the status `pending` the claim requires. -/
theorem c1_render_status_counterexample :
    (ToolInvocation.mk "call-1" "weather" Json.null none).result = none ∧
    ToolInvocationPart (some (ToolDef.mk true false))
        (ToolInvocation.mk "call-1" "weather" Json.null none)
      = Rendered.toolRenderView ToolStatus.complete Json.null ∧
    ToolInvocationPart (some (ToolDef.mk true false))
        (ToolInvocation.mk "call-1" "weather" Json.null none)
      ≠ Rendered.toolRenderView ToolStatus.pending Json.null := by
  refine ⟨rfl, rfl, ?_⟩
  simp [ToolInvocationPart]

/-- C1 (amended): for every tool that has a `render` function and every
invocation of it, `ToolInvocationPart` produces the render view from the
invocation args and the constant status `complete`, regardless of whether
the result is present. -/
theorem c1_render_status_always_complete (td : ToolDef) (ti : ToolInvocation)
    (h : td.hasRender = true) :
    ToolInvocationPart (some td) ti
      = Rendered.toolRenderView ToolStatus.complete ti.args := by
  simp [ToolInvocationPart, h]

/-- Witness for C1: the amended theorem applied at a concrete Render-mode
tool and a concrete pending invocation. -/
theorem c1_witness :
    (ToolDef.mk true false).hasRender = true ∧
    ToolInvocationPart (some (ToolDef.mk true false))
        (ToolInvocation.mk "call-2" "chart" (Json.str "x") none)
      = Rendered.toolRenderView ToolStatus.complete (Json.str "x") :=
  ⟨rfl, c1_render_status_always_complete (ToolDef.mk true false)
    (ToolInvocation.mk "call-2" "chart" (Json.str "x") none) rfl⟩

/-! ## C2: the RenderAndWait callback -/

/-- C2, counterexample: invoking the callback that `ToolInvocationPart`
hands to a RenderAndWait view produces only a console log — no resume
signal is among its effects, so the callback is not a path by which the
tool call resolves. -/
theorem c2_resume_counterexample :
    renderAndWaitCallback Json.null = [Effect.consoleLog Json.null] ∧
    (renderAndWaitCallback Json.null).any Effect.isResume = false :=
  ⟨rfl, rfl⟩

/-- C2 (amended): for every event value, invoking the callback handed to a
RenderAndWait view only logs the event to the console; it emits no resume
signal towards the Run Controller, so it does not resolve the tool call. -/
theorem c2_callback_only_logs (e : Json) :
    renderAndWaitCallback e = [Effect.consoleLog e] ∧
    (renderAndWaitCallback e).any Effect.isResume = false :=
  ⟨rfl, rfl⟩

/-! ## C5: unknown frames in the view -/

/-- C5, counterexample: a well-formed frame with an unknown type
discriminator is decoded and kept in the view model as an opaque entry, but
the chat view renders no entry at all for it — the rendered list for the
view model of that single frame is empty. -/
theorem c5_unknown_event_counterexample :
    renderCombinedEvents
        (viewModel ([Frame.unknownFrame "custom-frame" Json.null].map decodeFrame))
      = [] := rfl

/-- C5 (amended): an unknown-but-well-formed frame is decoded to the opaque
event variant and preserved as an entry of the view model, and an unknown
content part inside a message renders as a raw JSON code block; but the
chat view dispatch falls through on an opaque event and renders no entry
for it. -/
theorem c5_unknown_preserved_not_rendered :
    (∀ (ty : String) (p : Json),
        decodeFrame (Frame.unknownFrame ty p) = Event.unknownE ty p) ∧
    (∀ (ty : String) (p : Json),
        viewModel [Event.unknownE ty p] = [CombinedEvent.unknownEv ty p]) ∧
    (∀ (getTool : String → Option ToolDef) (j : Json),
        UniversalContentPart getTool (ContentPart.other j) = Rendered.codeBlock j) ∧
    (∀ (ty : String) (p : Json),
        renderCombinedEvent (CombinedEvent.unknownEv ty p) = none) :=
  ⟨fun _ _ => rfl, fun _ _ => rfl, fun _ _ => rfl, fun _ _ => rfl⟩

/-! ## C10: submit conditions of the chat text input -/

/-- C10: a keydown submits exactly when the key is Enter, Shift is not
held, no IME composition is in progress, no agent run is active, the
trimmed input is nonempty and neither Ctrl nor Meta is held; with Ctrl or
Meta additionally held a newline is inserted at the cursor instead; the
send button is disabled whenever the trimmed input is empty; and any text a
keydown submits has a nonempty trim, as does every suggestion chip label —
so `onSubmit` is never invoked with whitespace-only input. -/
theorem c10_chat_input_submit (st : InputState) (e : KeyEvent) :
    (∀ t, keyDownHandler st e = KeyAction.submit t ↔
        (t = st.userInput ∧ e.key = "Enter" ∧ e.shiftKey = false ∧
         st.isComposing = false ∧ st.runningAgent = false ∧
         (jsTrim st.userInput).length ≠ 0 ∧ e.ctrlKey = false ∧ e.metaKey = false)) ∧
    (e.key = "Enter" → e.shiftKey = false → st.isComposing = false →
     st.runningAgent = false → (jsTrim st.userInput).length ≠ 0 →
     (e.ctrlKey = true ∨ e.metaKey = true) →
     keyDownHandler st e
       = KeyAction.setInput (insertNewlineAt st.userInput st.selStart st.selEnd)) ∧
    ((jsTrim st.userInput).length = 0 → sendButtonEnabled st = false) ∧
    (sendButtonEnabled st = true → (jsTrim st.userInput).length ≠ 0) ∧
    (∀ t, keyDownHandler st e = KeyAction.submit t → (jsTrim t).length ≠ 0) ∧
    (∀ s ∈ suggestions, (jsTrim s).length ≠ 0) := by
  refine ⟨?_, ?_, ?_, ?_, ?_, ?_⟩
  · intro t
    unfold keyDownHandler
    split
    · rename_i hg
      obtain ⟨h1, h2, h3, h4, h5⟩ := hg
      split
      · rename_i hcm
        constructor
        · intro h; cases h
        · rintro ⟨-, -, -, -, -, -, hc, hm⟩
          rcases hcm with h | h
          · rw [hc] at h; cases h
          · rw [hm] at h; cases h
      · rename_i hcm
        push_neg at hcm
        constructor
        · intro h
          cases h
          refine ⟨rfl, h1, h2, h3, h4, h5, ?_, ?_⟩
          · cases hc : e.ctrlKey
            · rfl
            · exact absurd hc hcm.1
          · cases hm : e.metaKey
            · rfl
            · exact absurd hm hcm.2
        · rintro ⟨ht, -⟩
          rw [ht]
    · rename_i hg
      constructor
      · intro h; cases h
      · rintro ⟨-, h1, h2, h3, h4, h5, -, -⟩
        exact absurd ⟨h1, h2, h3, h4, h5⟩ hg
  · intro h1 h2 h3 h4 h5 hcm
    unfold keyDownHandler
    rw [if_pos ⟨h1, h2, h3, h4, h5⟩, if_pos hcm]
  · intro h
    simp [sendButtonEnabled, h]
  · intro h hz
    simp [sendButtonEnabled, hz] at h
  · intro t h
    unfold keyDownHandler at h
    split at h
    · rename_i hg
      split at h
      · cases h
      · cases h
        exact hg.2.2.2.2
    · cases h
  · intro s hs
    fin_cases hs <;> decide

/-- Witness for C10: the theorem applied at a concrete state and concrete
key events, showing a plain Enter submits the input and Ctrl+Enter inserts
a newline instead. -/
theorem c10_witness :
    keyDownHandler (InputState.mk "hello" false false 5 5)
        (KeyEvent.mk "Enter" false false false) = KeyAction.submit "hello" ∧
    keyDownHandler (InputState.mk "hello" false false 5 5)
        (KeyEvent.mk "Enter" false true false)
      = KeyAction.setInput
          (insertNewlineAt "hello" 5 5) := by
  constructor
  · exact ((c10_chat_input_submit (InputState.mk "hello" false false 5 5)
      (KeyEvent.mk "Enter" false false false)).1 "hello").mpr
      ⟨rfl, rfl, rfl, rfl, rfl, by decide, rfl, rfl⟩
  · exact (c10_chat_input_submit (InputState.mk "hello" false false 5 5)
      (KeyEvent.mk "Enter" false true false)).2.1 rfl rfl rfl rfl (by decide)
      (Or.inl rfl)

/-! ## C3: single active run per thread -/

/-- Updating the entry of one key leaves the key list of an association
list unchanged. -/
theorem keys_update_eq (l : List (String × RunState)) (tid : String) (rs : RunState) :
    (l.map (fun p => if p.1 = tid then (p.1, rs) else p)).map Prod.fst
      = l.map Prod.fst := by
  rw [List.map_map]
  apply List.map_congr_left
  intro p _
  by_cases hp : p.1 = tid <;> simp [hp]

/-- `setRun` preserves distinctness of the thread ids in the table. -/
theorem setRun_keys_nodup {m : Lifecycle} (h : (m.runs.map Prod.fst).Nodup)
    (tid : String) (rs : RunState) :
    ((setRun m tid rs).runs.map Prod.fst).Nodup := by
  unfold setRun
  split
  · show ((m.runs.map fun p => if p.1 = tid then (p.1, rs) else p).map Prod.fst).Nodup
    rw [keys_update_eq]
    exact h
  · rename_i hf
    have hnone : m.runs.find? (fun p => p.1 = tid) = none := by
      cases hx : m.runs.find? (fun p => p.1 = tid)
      · rfl
      · simp [hx] at hf
    have hmem : tid ∉ m.runs.map Prod.fst := by
      intro hm
      obtain ⟨p, hp, he⟩ := List.mem_map.mp hm
      have hnp := List.find?_eq_none.mp hnone p hp
      simp [he] at hnp
    simp [List.nodup_append, h, hmem]

/-- If a key is absent from an association list, the running-entry filter
for it is empty. -/
theorem no_key_filter_nil {tid : String} (l : List (String × RunState))
    (hl : tid ∉ l.map Prod.fst) :
    l.filter (fun p => p.1 = tid ∧ p.2.isRunning = true) = [] := by
  apply List.filter_eq_nil_iff.mpr
  intro p hp hc
  simp at hc
  exact hl (List.mem_map.mpr ⟨p, hp, hc.1⟩)

/-- With distinct keys, at most one table entry is an active run of a
given thread. -/
theorem key_filter_le_one {tid : String} :
    ∀ l : List (String × RunState), (l.map Prod.fst).Nodup →
      (l.filter (fun p => p.1 = tid ∧ p.2.isRunning = true)).length ≤ 1 := by
  intro l
  induction l with
  | nil => intro _; simp
  | cons hd tl ih =>
    intro h
    rw [List.map_cons, List.nodup_cons] at h
    by_cases hk : hd.1 = tid
    · have hmem : tid ∉ tl.map Prod.fst := by rw [hk] at h; exact h.1
      have htl := no_key_filter_nil tl hmem
      by_cases hr : hd.2.isRunning = true
      · rw [List.filter_cons_of_pos (by simp [hk, hr]), htl]
        simp
      · rw [List.filter_cons_of_neg (by simp [hk, hr]), htl]
        simp
    · rw [List.filter_cons_of_neg (by simp [hk])]
      exact ih h.2

/-- A successful `startRun` is exactly a `setRun` to the running state. -/
theorem startRun_ok_shape {m m2 : Lifecycle} {tid : String}
    (h : startRun m tid = Except.ok m2) :
    m2 = setRun m tid (RunState.mk true) := by
  unfold startRun at h
  cases hl : lookupRun m tid with
  | none => rw [hl] at h; cases h; rfl
  | some rs =>
    rw [hl] at h
    by_cases hr : rs.isRunning = true
    · simp [hr] at h
    · simp [hr] at h
      rw [h]

/-- Every reachable lifecycle table has distinct thread ids. -/
theorem reach_keys_nodup {m : Lifecycle} (h : Reach m) :
    (m.runs.map Prod.fst).Nodup := by
  induction h with
  | init => simp
  | start h1 h2 ih =>
      rw [startRun_ok_shape h2]
      exact setRun_keys_nodup ih _ (RunState.mk true)
  | stop h1 ih =>
      exact setRun_keys_nodup ih _ (RunState.mk false)

/-- C3: in every reachable lifecycle state, at most one table entry is an
active run for a given thread; calling `start` for a thread whose run is
active fails with `AlreadyRunningError`; and while an agent run is active
the chat input never submits — neither via keydown nor via the send
button, which is disabled. -/
theorem c3_single_run_per_thread :
    (∀ m, Reach m → ∀ tid, runningCount m tid ≤ 1) ∧
    (∀ (m : Lifecycle) (tid : String) (rs : RunState),
        lookupRun m tid = some rs → rs.isRunning = true →
        startRun m tid = Except.error RunError.alreadyRunning) ∧
    (∀ (st : InputState) (e : KeyEvent) (t : String),
        st.runningAgent = true → keyDownHandler st e ≠ KeyAction.submit t) ∧
    (∀ st : InputState, st.runningAgent = true → sendButtonEnabled st = false) := by
  refine ⟨?_, ?_, ?_, ?_⟩
  · intro m hm tid
    exact key_filter_le_one m.runs (reach_keys_nodup hm)
  · intro m tid rs hl hr
    unfold startRun
    rw [hl]
    simp [hr]
  · intro st e t hrun h
    unfold keyDownHandler at h
    split at h
    · rename_i hg
      have hfalse := hg.2.2.2.1
      rw [hrun] at hfalse
      cases hfalse
    · cases h
  · intro st hrun
    simp [sendButtonEnabled, hrun]

/-- Witness for C3: the theorem applied at a concrete reachable state with
one active run, and at a concrete running input state. -/
theorem c3_witness :
    runningCount (Lifecycle.mk [("t1", RunState.mk true)]) "t1" ≤ 1 ∧
    startRun (Lifecycle.mk [("t1", RunState.mk true)]) "t1"
      = Except.error RunError.alreadyRunning ∧
    keyDownHandler (InputState.mk "hi" false true 0 0)
        (KeyEvent.mk "Enter" false false false) ≠ KeyAction.submit "hi" := by
  refine ⟨?_, ?_, ?_⟩
  · exact c3_single_run_per_thread.1 (Lifecycle.mk [("t1", RunState.mk true)])
      (Reach.start Reach.init (by rfl)) "t1"
  · exact c3_single_run_per_thread.2.1 (Lifecycle.mk [("t1", RunState.mk true)])
      "t1" (RunState.mk true) (by rfl) rfl
  · exact c3_single_run_per_thread.2.2.1 (InputState.mk "hi" false true 0 0)
      (KeyEvent.mk "Enter" false false false) "hi" rfl

/-! ## C4: deleting a thread with an active run -/

/-- Marking the entry of one key not-running commutes with the lookup used
by `isRunningS`. -/
theorem find?_cancel_map (tid : String) :
    ∀ l : List (String × RunState),
      (l.map (fun p => if p.1 = tid then (p.1, RunState.mk false) else p)).find?
          (fun p => p.1 = tid)
        = (l.find? (fun p => p.1 = tid)).map
            (fun p => if p.1 = tid then (p.1, RunState.mk false) else p) := by
  intro l
  induction l with
  | nil => simp
  | cons hd tl ih =>
    by_cases h : hd.1 = tid
    · simp [List.find?_cons, h]
    · simp [List.find?_cons, h, ih]

/-- After cancellation the thread is no longer running. -/
theorem isRunningS_cancel (s : SessionState) (tid : String) :
    isRunningS (cancelRunS s tid) tid = false := by
  unfold isRunningS cancelRunS
  rw [show (SessionState.mk
      (s.runs.map (fun p => if p.1 = tid then (p.1, RunState.mk false) else p))
      s.logs).runs
    = s.runs.map (fun p => if p.1 = tid then (p.1, RunState.mk false) else p) from rfl]
  rw [find?_cancel_map]
  cases hx : s.runs.find? (fun p => p.1 = tid) with
  | none => rfl
  | some p =>
    have hp := List.find?_some hx
    simp at hp
    simp [hp]

/-- Filtering a key out of an association list makes its lookup fail. -/
theorem find?_filter_out {α : Type} (tid : String) (l : List (String × α)) :
    (l.filter (fun p => p.1 ≠ tid)).find? (fun p => p.1 = tid) = none := by
  apply List.find?_eq_none.mpr
  intro x hx
  have hmem := List.mem_filter.mp hx
  simp at hmem ⊢
  exact hmem.2

/-- C4: deleting a thread with an active run yields exactly the trace
cancel-run, remove-state, fire-callback — the deletion callback fires only
after both the cancellation and the removal; no event can be appended to
the thread once cancelled, nor after removal; and the final state carries
neither a run nor a log for the thread. -/
theorem c4_delete_cancels_before_callback (s : SessionState) (tid : String)
    (h : isRunningS s tid = true) :
    (deleteThread s tid).2
      = [DelStep.cancelRun tid, DelStep.removeState tid, DelStep.callbackFired tid] ∧
    (∀ e, appendDecoded (cancelRunS s tid) tid e = cancelRunS s tid) ∧
    (∀ e, appendDecoded (deleteThread s tid).1 tid e = (deleteThread s tid).1) ∧
    isRunningS (deleteThread s tid).1 tid = false ∧
    lookupLog (deleteThread s tid).1 tid = none := by
  have hc : isRunningS (cancelRunS s tid) tid = false := isRunningS_cancel s tid
  have hfst : (deleteThread s tid).1 = removeThreadS (cancelRunS s tid) tid := rfl
  have hr : isRunningS (removeThreadS (cancelRunS s tid) tid) tid = false := by
    unfold isRunningS removeThreadS
    rw [show (SessionState.mk
        ((cancelRunS s tid).runs.filter (fun p => p.1 ≠ tid))
        ((cancelRunS s tid).logs.filter (fun p => p.1 ≠ tid))).runs
      = (cancelRunS s tid).runs.filter (fun p => p.1 ≠ tid) from rfl]
    rw [find?_filter_out]
  refine ⟨?_, ?_, ?_, ?_, ?_⟩
  · simp [deleteThread, h]
  · intro e
    simp [appendDecoded, hc]
  · intro e
    rw [hfst]
    simp [appendDecoded, hr]
  · rw [hfst]
    exact hr
  · rw [hfst]
    unfold lookupLog removeThreadS
    rw [show (SessionState.mk
        ((cancelRunS s tid).runs.filter (fun p => p.1 ≠ tid))
        ((cancelRunS s tid).logs.filter (fun p => p.1 ≠ tid))).logs
      = (cancelRunS s tid).logs.filter (fun p => p.1 ≠ tid) from rfl]
    rw [find?_filter_out]
    rfl

/-- Witness for C4: the theorem applied at a concrete state with one
running thread. -/
theorem c4_witness :
    (deleteThread (SessionState.mk [("t1", RunState.mk true)] [("t1", [])]) "t1").2
      = [DelStep.cancelRun "t1", DelStep.removeState "t1",
         DelStep.callbackFired "t1"] ∧
    appendDecoded
        (deleteThread (SessionState.mk [("t1", RunState.mk true)] [("t1", [])]) "t1").1
        "t1" Json.null
      = (deleteThread (SessionState.mk [("t1", RunState.mk true)] [("t1", [])]) "t1").1 := by
  constructor
  · exact (c4_delete_cancels_before_callback
      (SessionState.mk [("t1", RunState.mk true)] [("t1", [])]) "t1" rfl).1
  · exact (c4_delete_cancels_before_callback
      (SessionState.mk [("t1", RunState.mk true)] [("t1", [])]) "t1" rfl).2.2.1 Json.null

/-! ## C7: text deltas concatenate through decode and merge -/

/-- Text extraction distributes over appending content parts. -/
theorem textOfParts_append (xs ys : List ContentPart) :
    textOfParts (xs ++ ys) = textOfParts xs ++ textOfParts ys := by
  induction xs with
  | nil => simp [textOfParts, String.empty_append]
  | cons p rest ih =>
    cases p <;> simp [textOfParts, ih, String.append_assoc]

/-- Coalescing adjacent text parts does not change the carried text. -/
theorem textOfParts_coalesce (ps : List ContentPart) :
    textOfParts (coalesceTexts ps) = textOfParts ps := by
  induction ps using coalesceTexts.induct with
  | case1 =>
    simp [coalesceTexts]
  | case2 a b rest ih =>
    have he : coalesceTexts (ContentPart.text a :: ContentPart.text b :: rest)
        = coalesceTexts (ContentPart.text (a ++ b) :: rest) := by
      conv_lhs => rw [coalesceTexts]
    rw [he, ih]
    simp [textOfParts, String.append_assoc]
  | case3 p rest hne ih =>
    have he : coalesceTexts (p :: rest) = p :: coalesceTexts rest := by
      rw [coalesceTexts.eq_def]
      cases p with
      | text t =>
        cases rest with
        | nil => rfl
        | cons q qs =>
          cases q with
          | text u => exact absurd rfl (hne t u qs rfl)
          | toolInvocationPart ti => rfl
          | other j => rfl
      | toolInvocationPart ti => rfl
      | other j => rfl
    rw [he]
    cases p <;> simp [textOfParts, ih]

/-- Resolving a tool call does not change the carried text of parts. -/
theorem textOfParts_resolve (c r : String) (ps : List ContentPart) :
    textOfParts (ps.map (resolvePart c r)) = textOfParts ps := by
  induction ps with
  | nil => rfl
  | cons p rest ih => cases p <;> simp [resolvePart, textOfParts, ih]

/-- Resolving a tool call does not change the text of a view entry. -/
theorem textOfEntry_resolve (c r : String) (e : CombinedEvent) :
    textOfEntry (resolveEntry c r e) = textOfEntry e := by
  cases e <;> simp [resolveEntry, textOfEntry, textOfParts_resolve]

/-- Resolving a tool call does not change the text of the accumulator. -/
theorem revText_resolve (c r : String) (l : List CombinedEvent) :
    revText (l.map (resolveEntry c r)) = revText l := by
  induction l with
  | nil => rfl
  | cons e rest ih => simp [revText, ih, textOfEntry_resolve]

/-- Removing the thinking entry does not change the text. -/
theorem revText_dropThinking (l : List CombinedEvent) :
    revText (dropThinking l) = revText l := by
  cases l with
  | nil => rfl
  | cons e rest =>
    cases e <;> simp [dropThinking, revText, textOfEntry, String.append_empty]

/-- Pushing a message event adds exactly its text at the end. -/
theorem revText_pushMsg (i role : String) (parts : List ContentPart)
    (l : List CombinedEvent) :
    revText (pushMsg i role parts l) = revText l ++ textOfParts parts := by
  cases l with
  | nil =>
    simp [pushMsg, revText, textOfEntry, textOfParts_coalesce, String.empty_append]
  | cons hd rest =>
    cases hd with
    | messageEv j r ps =>
      by_cases hij : i = j
      · rw [pushMsg, if_pos hij]
        simp [revText, textOfEntry, textOfParts_coalesce, textOfParts_append,
          String.append_assoc]
      · rw [pushMsg, if_neg hij]
        simp [revText, textOfEntry, textOfParts_coalesce, String.append_assoc]
    | errorEv m =>
      simp [pushMsg, revText, textOfEntry, textOfParts_coalesce]
    | stepEv n b =>
      simp [pushMsg, revText, textOfEntry, textOfParts_coalesce]
    | thinkingEv =>
      simp [pushMsg, revText, textOfEntry, textOfParts_coalesce]
    | unknownEv ty p =>
      simp [pushMsg, revText, textOfEntry, textOfParts_coalesce]

/-- One merge step adds exactly the text of the incoming event at the end. -/
theorem revText_push (acc : List CombinedEvent) (e : Event) :
    revText (pushRev acc e) = revText acc ++ textOfEvent e := by
  cases e with
  | message i role parts =>
    rw [pushRev, revText_pushMsg, revText_dropThinking]
    rfl
  | toolResultE c r =>
    rw [pushRev, revText_resolve, revText_dropThinking]
    simp [textOfEvent, String.append_empty]
  | stepE n b =>
    rw [pushRev]
    simp [revText, revText_dropThinking, textOfEntry, textOfEvent,
      String.append_empty]
  | thinkingE =>
    rw [pushRev]
    simp [revText, revText_dropThinking, textOfEntry, textOfEvent,
      String.append_empty]
  | errorE m =>
    rw [pushRev]
    simp [revText, revText_dropThinking, textOfEntry, textOfEvent,
      String.append_empty]
  | unknownE ty p =>
    rw [pushRev]
    simp [revText, revText_dropThinking, textOfEntry, textOfEvent,
      String.append_empty]

/-- The merge fold adds exactly the text of the event sequence. -/
theorem revText_foldl (evs : List Event) :
    ∀ acc, revText (evs.foldl pushRev acc) = revText acc ++ textOfEvents evs := by
  induction evs with
  | nil => intro acc; simp [textOfEvents, String.append_empty]
  | cons e rest ih =>
    intro acc
    rw [List.foldl_cons, ih, revText_push, textOfEvents, String.append_assoc]

/-- View text distributes over appending. -/
theorem textOfView_append (xs ys : List CombinedEvent) :
    textOfView (xs ++ ys) = textOfView xs ++ textOfView ys := by
  induction xs with
  | nil => simp [textOfView, String.empty_append]
  | cons e rest ih => simp [textOfView, ih, String.append_assoc]

/-- The chronological view text of a reversed accumulator. -/
theorem textOfView_reverse (l : List CombinedEvent) :
    textOfView l.reverse = revText l := by
  induction l with
  | nil => rfl
  | cons e rest ih =>
    rw [List.reverse_cons, textOfView_append, ih]
    simp [textOfView, revText, String.append_empty]

/-- Decoding preserves the text deltas of a frame sequence. -/
theorem textOfEvents_decode (fs : List Frame) :
    textOfEvents (fs.map decodeFrame) = textOfFrames fs := by
  induction fs with
  | nil => rfl
  | cons f rest ih =>
    cases f <;> simp [decodeFrame, textOfEvents, textOfEvent, textOfParts,
      textOfFrames, ih, String.append_empty, String.empty_append,
      String.append_assoc]

/-- Two entries of the same message id are never adjacent, whichever side
carries the id. -/
theorem sameMessage_comm (a b : CombinedEvent) :
    sameMessage a b ↔ sameMessage b a := by
  cases a <;> cases b <;> simp [sameMessage]
  exact eq_comm

/-- Resolving a tool call preserves the message-id relation. -/
theorem sameMessage_resolve (c r : String) (a b : CombinedEvent) :
    sameMessage (resolveEntry c r a) (resolveEntry c r b) ↔ sameMessage a b := by
  cases a <;> cases b <;> simp [resolveEntry, sameMessage]

/-- The message-id relation only looks at the id of a message entry. -/
theorem sameMessage_msg_parts (j r r2 : String) (ps qs : List ContentPart)
    (b : CombinedEvent) :
    sameMessage (CombinedEvent.messageEv j r ps) b
      ↔ sameMessage (CombinedEvent.messageEv j r2 qs) b := by
  cases b <;> simp [sameMessage]

/-- `dropThinking` keeps the no-adjacent-same-message invariant. -/
theorem noAdj_dropThinking {l : List CombinedEvent}
    (h : List.Chain' (fun a b => ¬ sameMessage a b) l) :
    List.Chain' (fun a b => ¬ sameMessage a b) (dropThinking l) := by
  cases l with
  | nil => exact h
  | cons e rest =>
    cases e <;> simp [dropThinking] <;> first
      | exact List.Chain'.tail h
      | exact h

/-- `pushMsg` keeps the no-adjacent-same-message invariant. -/
theorem noAdj_pushMsg (i role : String) (parts : List ContentPart)
    {l : List CombinedEvent}
    (h : List.Chain' (fun a b => ¬ sameMessage a b) l) :
    List.Chain' (fun a b => ¬ sameMessage a b) (pushMsg i role parts l) := by
  cases l with
  | nil => simp [pushMsg]
  | cons hd rest =>
    cases hd with
    | messageEv j r ps =>
      by_cases hij : i = j
      · rw [pushMsg, if_pos hij]
        rw [List.chain'_cons'] at h ⊢
        refine ⟨?_, h.2⟩
        intro b hb
        have := h.1 b hb
        intro hs
        exact this ((sameMessage_msg_parts j r r
          (coalesceTexts (ps ++ parts)) ps b).mp hs)
      · rw [pushMsg, if_neg hij]
        rw [List.chain'_cons]
        exact ⟨by simp [sameMessage, hij], h⟩
    | errorEv m =>
      have he : pushMsg i role parts (CombinedEvent.errorEv m :: rest)
          = CombinedEvent.messageEv i role (coalesceTexts parts) ::
              (CombinedEvent.errorEv m :: rest) := by simp [pushMsg]
      rw [he, List.chain'_cons]
      exact ⟨by simp [sameMessage], h⟩
    | stepEv n b =>
      have he : pushMsg i role parts (CombinedEvent.stepEv n b :: rest)
          = CombinedEvent.messageEv i role (coalesceTexts parts) ::
              (CombinedEvent.stepEv n b :: rest) := by simp [pushMsg]
      rw [he, List.chain'_cons]
      exact ⟨by simp [sameMessage], h⟩
    | thinkingEv =>
      have he : pushMsg i role parts (CombinedEvent.thinkingEv :: rest)
          = CombinedEvent.messageEv i role (coalesceTexts parts) ::
              (CombinedEvent.thinkingEv :: rest) := by simp [pushMsg]
      rw [he, List.chain'_cons]
      exact ⟨by simp [sameMessage], h⟩
    | unknownEv ty p =>
      have he : pushMsg i role parts (CombinedEvent.unknownEv ty p :: rest)
          = CombinedEvent.messageEv i role (coalesceTexts parts) ::
              (CombinedEvent.unknownEv ty p :: rest) := by simp [pushMsg]
      rw [he, List.chain'_cons]
      exact ⟨by simp [sameMessage], h⟩

/-- One merge step keeps the no-adjacent-same-message invariant. -/
theorem noAdj_push (acc : List CombinedEvent) (e : Event)
    (h : List.Chain' (fun a b => ¬ sameMessage a b) acc) :
    List.Chain' (fun a b => ¬ sameMessage a b) (pushRev acc e) := by
  have h1 := noAdj_dropThinking h
  cases e with
  | message i role parts => exact noAdj_pushMsg i role parts h1
  | toolResultE c r =>
    rw [pushRev, List.chain'_map]
    refine List.Chain'.imp ?_ h1
    intro a b hab hs
    exact hab ((sameMessage_resolve c r a b).mp hs)
  | stepE n b =>
    rw [pushRev, List.chain'_cons']
    exact ⟨fun b _ => by simp [sameMessage], h1⟩
  | thinkingE =>
    rw [pushRev, List.chain'_cons']
    exact ⟨fun b _ => by simp [sameMessage], h1⟩
  | errorE m =>
    rw [pushRev, List.chain'_cons']
    exact ⟨fun b _ => by simp [sameMessage], h1⟩
  | unknownE ty p =>
    rw [pushRev, List.chain'_cons']
    exact ⟨fun b _ => by simp [sameMessage], h1⟩

/-- The merge fold keeps the no-adjacent-same-message invariant. -/
theorem noAdj_foldl (evs : List Event) :
    ∀ acc, List.Chain' (fun a b => ¬ sameMessage a b) acc →
      List.Chain' (fun a b => ¬ sameMessage a b) (evs.foldl pushRev acc) := by
  induction evs with
  | nil => intro acc h; exact h
  | cons e rest ih =>
    intro acc h
    rw [List.foldl_cons]
    exact ih _ (noAdj_push acc e h)

/-- A run of text deltas of one message merges into its single entry. -/
theorem deltaRun_single (i r : String) :
    ∀ (ds : List String) (t : String),
      (ds.map (fun d => Event.message i r [ContentPart.text d])).foldl pushRev
          [CombinedEvent.messageEv i r [ContentPart.text t]]
        = [CombinedEvent.messageEv i r [ContentPart.text (t ++ concatAll ds)]] := by
  intro ds
  induction ds with
  | nil => intro t; simp [concatAll, String.append_empty]
  | cons d rest ih =>
    intro t
    rw [List.map_cons, List.foldl_cons]
    have hstep :
        pushRev [CombinedEvent.messageEv i r [ContentPart.text t]]
            (Event.message i r [ContentPart.text d])
          = [CombinedEvent.messageEv i r [ContentPart.text (t ++ d)]] := by
      rw [pushRev]
      simp [dropThinking, pushMsg, coalesceTexts]
    rw [hstep, ih (t ++ d), concatAll, String.append_assoc]

/-- C7: pushing any frame sequence through the Event Decoder and the
Session Store merge yields a view model whose message text equals the
concatenation of all text deltas in frame order; no two adjacent entries
belong to the same message (no separate bubble per delta); and a run of
consecutive text deltas of one in-progress message produces exactly one
logical message carrying their concatenation. -/
theorem c7_round_trip_text :
    (∀ fs : List Frame,
        textOfView (viewModel (fs.map decodeFrame)) = textOfFrames fs) ∧
    (∀ fs : List Frame,
        List.Chain' (fun a b => ¬ sameMessage a b) (viewModel (fs.map decodeFrame))) ∧
    (∀ (i d : String) (ds : List String),
        viewModel (((d :: ds).map (Frame.textDelta i)).map decodeFrame)
          = [CombinedEvent.messageEv i "assistant"
              [ContentPart.text (concatAll (d :: ds))]]) := by
  refine ⟨?_, ?_, ?_⟩
  · intro fs
    unfold viewModel
    rw [textOfView_reverse, revText_foldl]
    simp [revText, String.empty_append, textOfEvents_decode]
  · intro fs
    unfold viewModel
    rw [List.chain'_reverse]
    refine List.Chain'.imp ?_ (noAdj_foldl (fs.map decodeFrame) [] (by simp))
    intro a b hab
    show ¬ sameMessage b a
    intro hs
    exact hab ((sameMessage_comm b a).mp hs)
  · intro i d ds
    unfold viewModel
    rw [List.map_cons, List.map_cons, List.foldl_cons]
    have hfirst :
        pushRev [] (decodeFrame (Frame.textDelta i d))
          = [CombinedEvent.messageEv i "assistant" [ContentPart.text d]] := by
      rw [decodeFrame, pushRev]
      simp [dropThinking, pushMsg, coalesceTexts]
    rw [hfirst]
    have hmap : (ds.map (Frame.textDelta i)).map decodeFrame
        = ds.map (fun d2 => Event.message i "assistant" [ContentPart.text d2]) := by
      rw [List.map_map]
      rfl
    rw [hmap, deltaRun_single i "assistant" ds d]
    rw [concatAll]
    rfl

/-! ## C6: error events stay standalone -/

/-- Resolving a tool call does not change the error carried by an entry. -/
theorem errOfEntry_resolve (c r : String) (e : CombinedEvent) :
    errOfEntry (resolveEntry c r e) = errOfEntry e := by
  cases e <;> simp [resolveEntry, errOfEntry]

/-- Resolving a tool call does not change the errors of the accumulator. -/
theorem revErrors_resolve (c r : String) (l : List CombinedEvent) :
    revErrors (l.map (resolveEntry c r)) = revErrors l := by
  induction l with
  | nil => rfl
  | cons e rest ih => simp [revErrors, ih, errOfEntry_resolve]

/-- Removing the thinking entry does not change the errors. -/
theorem revErrors_dropThinking (l : List CombinedEvent) :
    revErrors (dropThinking l) = revErrors l := by
  cases l with
  | nil => rfl
  | cons e rest =>
    cases e <;> simp [dropThinking, revErrors, errOfEntry]

/-- Pushing a message event adds no error entry. -/
theorem revErrors_pushMsg (i role : String) (parts : List ContentPart)
    (l : List CombinedEvent) :
    revErrors (pushMsg i role parts l) = revErrors l := by
  cases l with
  | nil => simp [pushMsg, revErrors, errOfEntry]
  | cons hd rest =>
    cases hd with
    | messageEv j r ps =>
      by_cases hij : i = j
      · rw [pushMsg, if_pos hij]
        simp [revErrors, errOfEntry]
      · rw [pushMsg, if_neg hij]
        simp [revErrors, errOfEntry]
    | errorEv m => simp [pushMsg, revErrors, errOfEntry]
    | stepEv n b => simp [pushMsg, revErrors, errOfEntry]
    | thinkingEv => simp [pushMsg, revErrors, errOfEntry]
    | unknownEv ty p => simp [pushMsg, revErrors, errOfEntry]

/-- One merge step adds exactly the error of the incoming event at the
end, as its own standalone entry. -/
theorem revErrors_push (acc : List CombinedEvent) (e : Event) :
    revErrors (pushRev acc e) = revErrors acc ++ errOfEvent e := by
  cases e with
  | message i role parts =>
    rw [pushRev, revErrors_pushMsg, revErrors_dropThinking]
    simp [errOfEvent]
  | toolResultE c r =>
    rw [pushRev, revErrors_resolve, revErrors_dropThinking]
    simp [errOfEvent]
  | stepE n b =>
    rw [pushRev]
    simp [revErrors, revErrors_dropThinking, errOfEntry, errOfEvent]
  | thinkingE =>
    rw [pushRev]
    simp [revErrors, revErrors_dropThinking, errOfEntry, errOfEvent]
  | errorE m =>
    rw [pushRev]
    simp [revErrors, revErrors_dropThinking, errOfEntry, errOfEvent]
  | unknownE ty p =>
    rw [pushRev]
    simp [revErrors, revErrors_dropThinking, errOfEntry, errOfEvent]

/-- The merge fold adds exactly the errors of the event sequence. -/
theorem revErrors_foldl (evs : List Event) :
    ∀ acc, revErrors (evs.foldl pushRev acc) = revErrors acc ++ errorsOfEvents evs := by
  induction evs with
  | nil => intro acc; simp [errorsOfEvents]
  | cons e rest ih =>
    intro acc
    rw [List.foldl_cons, ih, revErrors_push, errorsOfEvents, List.append_assoc]

/-- View errors distribute over appending. -/
theorem errorsOfView_append (xs ys : List CombinedEvent) :
    errorsOfView (xs ++ ys) = errorsOfView xs ++ errorsOfView ys := by
  induction xs with
  | nil => simp [errorsOfView]
  | cons e rest ih => simp [errorsOfView, ih]

/-- The chronological view errors of a reversed accumulator. -/
theorem errorsOfView_reverse (l : List CombinedEvent) :
    errorsOfView l.reverse = revErrors l := by
  induction l with
  | nil => rfl
  | cons e rest ih =>
    rw [List.reverse_cons, errorsOfView_append, ih]
    simp [errorsOfView, revErrors]

/-- C6: for every event sequence, the error entries of the merged view
model are exactly the error events of the sequence, in order — every
`ErrorEvent` becomes its own standalone entry and is never merged into a
message (message entries carry only content parts); and the chat view
dispatch renders an error entry as a standalone `ChatError` item. -/
theorem c6_errors_standalone :
    (∀ evs : List Event, errorsOfView (viewModel evs) = errorsOfEvents evs) ∧
    (∀ m, renderCombinedEvent (CombinedEvent.errorEv m)
        = some (ViewItem.chatError m)) ∧
    (∀ (i r : String) (ps : List ContentPart),
        errOfEntry (CombinedEvent.messageEv i r ps) = []) := by
  refine ⟨?_, fun _ => rfl, fun _ _ _ => rfl⟩
  intro evs
  unfold viewModel
  rw [errorsOfView_reverse, revErrors_foldl]
  simp [revErrors]

/-! ## C8: sequence order and single resolution -/

/-- Resolving the same tool call twice leaves the first result in place:
the second attempt is ignored. -/
theorem resolveInvocation_twice (c r1 r2 : String) (ti : ToolInvocation) :
    resolveInvocation c r2 (resolveInvocation c r1 ti)
      = resolveInvocation c r1 ti := by
  unfold resolveInvocation
  by_cases h : ti.toolCallId = c ∧ ti.result = none
  · rw [if_pos h, if_neg (by simp)]
  · rw [if_neg h, if_neg h]

/-- A second resolution of a content part is ignored. -/
theorem resolvePart_twice (c r1 r2 : String) (p : ContentPart) :
    resolvePart c r2 (resolvePart c r1 p) = resolvePart c r1 p := by
  cases p <;> simp [resolvePart, resolveInvocation_twice]

/-- A second resolution of a stored event is ignored. -/
theorem resolveStored_twice (c r1 r2 : String) (se : StoredEvent) :
    resolveStored c r2 (resolveStored c r1 se) = resolveStored c r1 se := by
  cases se with
  | mk s p =>
    cases p with
    | message i r ps =>
      simp only [resolveStored, List.map_map]
      rw [List.map_congr_left]
      intro q _
      exact resolvePart_twice c r1 r2 q
    | toolResultE a b => rfl
    | stepE n b => rfl
    | thinkingE => rfl
    | errorE m => rfl
    | unknownE ty j => rfl

/-- Resolution keeps the sequence number of a stored event. -/
theorem resolveStored_sequence (c r : String) (se : StoredEvent) :
    (resolveStored c r se).sequence = se.sequence := by
  cases se with
  | mk s p => cases p <;> rfl

/-- C8: appending preserves strictly increasing sequence numbers (so the
sequence field defines a total order on the log); resolving a tool result
changes neither the sequence numbers, the next sequence, nor the number of
events; resolving the same call twice equals resolving it once; and the
in-place update touches only the result field of the matching invocation,
taking it from absent to present. -/
theorem c8_sequence_and_resolution :
    WfLog ThreadLog.empty ∧
    (∀ (l : ThreadLog) (e : Event), WfLog l → WfLog (appendEvent l e)) ∧
    (∀ l : ThreadLog, WfLog l →
        (l.events.map StoredEvent.sequence).Pairwise (fun a b => a < b)) ∧
    (∀ (l : ThreadLog) (c r : String),
        (resolveLog c r l).events.map StoredEvent.sequence
            = l.events.map StoredEvent.sequence ∧
        (resolveLog c r l).nextSeq = l.nextSeq ∧
        (resolveLog c r l).events.length = l.events.length) ∧
    (∀ (l : ThreadLog) (c r1 r2 : String),
        resolveLog c r2 (resolveLog c r1 l) = resolveLog c r1 l) ∧
    (∀ (ti : ToolInvocation) (c r : String),
        (resolveInvocation c r ti).toolCallId = ti.toolCallId ∧
        (resolveInvocation c r ti).toolName = ti.toolName ∧
        (resolveInvocation c r ti).args = ti.args ∧
        ((resolveInvocation c r ti).result = ti.result ∨
          (ti.result = none ∧ (resolveInvocation c r ti).result = some r))) := by
  refine ⟨?_, ?_, ?_, ?_, ?_, ?_⟩
  · exact ⟨by simp [ThreadLog.empty], by simp [ThreadLog.empty]⟩
  · intro l e h
    obtain ⟨hchain, hbound⟩ := h
    constructor
    · rw [appendEvent]
      simp only [List.map_append, List.map_cons, List.map_nil]
      rw [List.chain'_append]
      refine ⟨hchain, List.chain'_singleton _, ?_⟩
      intro x hx y hy
      simp at hy
      subst hy
      exact hbound x (List.mem_of_mem_getLast? hx)
    · intro s hs
      show s < l.nextSeq + 1
      rw [appendEvent] at hs
      simp only [List.map_append, List.map_cons, List.map_nil,
        List.mem_append, List.mem_singleton] at hs
      rcases hs with hs | hs
      · have := hbound s hs
        omega
      · omega
  · intro l h
    exact List.chain'_iff_pairwise.mp h.1
  · intro l c r
    refine ⟨?_, rfl, by simp [resolveLog]⟩
    rw [resolveLog]
    simp only [List.map_map]
    apply List.map_congr_left
    intro se _
    exact resolveStored_sequence c r se
  · intro l c r1 r2
    simp only [resolveLog, List.map_map]
    congr 1
    apply List.map_congr_left
    intro se _
    exact resolveStored_twice c r1 r2 se
  · intro ti c r
    unfold resolveInvocation
    by_cases h : ti.toolCallId = c ∧ ti.result = none
    · rw [if_pos h]
      exact ⟨rfl, rfl, rfl, Or.inr ⟨h.2, rfl⟩⟩
    · rw [if_neg h]
      exact ⟨rfl, rfl, rfl, Or.inl rfl⟩

/-- Witness for C8: the theorem applied at the empty log, a concrete
appended event, and a concrete double resolution. -/
theorem c8_witness :
    WfLog (appendEvent ThreadLog.empty Event.thinkingE) ∧
    resolveLog "call-9" "pong2" (resolveLog "call-9" "pong"
        (appendEvent ThreadLog.empty
          (Event.message "m1" "assistant"
            [ContentPart.toolInvocationPart
              (ToolInvocation.mk "call-9" "ping" Json.null none)])))
      = resolveLog "call-9" "pong"
          (appendEvent ThreadLog.empty
            (Event.message "m1" "assistant"
              [ContentPart.toolInvocationPart
                (ToolInvocation.mk "call-9" "ping" Json.null none)])) := by
  constructor
  · exact c8_sequence_and_resolution.2.1 ThreadLog.empty Event.thinkingE
      c8_sequence_and_resolution.1
  · exact c8_sequence_and_resolution.2.2.2.2.1 _ "call-9" "pong" "pong2"

/-! ## C9: per-message error boundary -/

/-- C9: a failure of the per-message render step is caught by that message
boundary and substituted with the diagnostic view carrying the message data
and the error; a successful render is shown as is; every message of the
list still yields a view (nothing crashes the session); the rendering of
one message is independent of the other messages in the list; and a render
pass over the store returns the store unchanged, so failures never
propagate into the Session Store. -/
theorem c9_error_boundary
    (rc : ChatMessageEvent → Except String (List Rendered))
    (l : ThreadLog) (ms : List ChatMessageEvent) :
    (∀ m e, rc m = Except.error e → ChatMessage rc m = MessageView.diagnostic m e) ∧
    (∀ m v, rc m = Except.ok v → ChatMessage rc m = MessageView.content v) ∧
    (renderMessageList rc ms).length = ms.length ∧
    (∀ pre m post, renderMessageList rc (pre ++ m :: post)
        = renderMessageList rc pre ++ ChatMessage rc m :: renderMessageList rc post) ∧
    (renderAgainstStore l rc).1 = l := by
  refine ⟨?_, ?_, ?_, ?_, rfl⟩
  · intro m e h; simp [ChatMessage, h]
  · intro m v h; simp [ChatMessage, h]
  · simp [renderMessageList]
  · intro pre m post; simp [renderMessageList]

/-- Witness for C9: the theorem applied at a renderer that fails on every
message, at a concrete message. -/
theorem c9_witness :
    ChatMessage (fun _ => Except.error "boom") (ChatMessageEvent.mk "m1" "assistant" [])
      = MessageView.diagnostic (ChatMessageEvent.mk "m1" "assistant" []) "boom" :=
  (c9_error_boundary (fun _ => Except.error "boom") ThreadLog.empty []).1
    (ChatMessageEvent.mk "m1" "assistant" []) "boom" rfl

end DeployAgent
